import Mathlib

/-!
Shallow embedding of the core of the Inventroy-Barcode repository:
the inventory catalog, the delivery ledger, the Stock Ledger Reconciler
operations (record, update, delete from src/routes/delivery.js) and the
barcode allocator plus catalog ingestion (src/routes/inventory.js).

Modelling conventions:
* Mongo documents become Lean structures; a collection is a list of
  (id, document) pairs, ids modelled as Nat.
* Numeric quantities are Int (JS numbers used as integers after parseInt);
  unit price is Rat (no claim computes with it).
* `parseInt` results are taken as already-parsed Int arguments; a NaN from
  a non-numeric field in catalog ingestion is modelled as `none` (the code
  skips it via the `if (!qty) continue` falsy check, same as 0).
* `Math.random` digit draws are modelled by an arbitrary stream
  `rand : Nat → Nat`, each draw taken mod 10 as in
  `Math.floor(Math.random() * 10)`.
* Fields the claims never touch (timestamps, deliveredBy user reference)
  are omitted.
-/

structure InventoryItem where
  itemName : String
  category : String
  size : String
  color : String
  barcode : String
  quantity : Int
  price : Rat
  description : String
deriving DecidableEq

structure Delivery where
  inventoryItem : Option Nat
  barcode : String
  customerName : String
  quantityDelivered : Int
  notes : String
deriving DecidableEq

structure DB where
  inventory : List (Nat × InventoryItem)
  deliveries : List (Nat × Delivery)
  nextId : Nat
deriving DecidableEq

/-- Mongoose `findById`: first document whose id matches. -/
def findPair {α : Type} (l : List (Nat × α)) (id : Nat) : Option (Nat × α) :=
  l.find? (fun p => p.1 == id)

/-- Point update of the document with the given id (`findByIdAndUpdate`,
`document.save()` after a field mutation). -/
def updateByKey {α : Type} (l : List (Nat × α)) (id : Nat) (f : α → α) :
    List (Nat × α) :=
  l.map (fun p => if p.1 == id then (p.1, f p.2) else p)

def findItem (db : DB) (id : Nat) : Option InventoryItem :=
  (findPair db.inventory id).map Prod.snd

def findDelivery (db : DB) (id : Nat) : Option Delivery :=
  (findPair db.deliveries id).map Prod.snd

/-- `Inventory.findByIdAndUpdate(id, \x7b $inc: \x7b quantity: delta \x7d \x7d)`:
a no-op when no item has the id. -/
def incItemQuantity (db : DB) (id : Nat) (delta : Int) : DB :=
  { db with
      inventory := updateByKey db.inventory id
        (fun it => { it with quantity := it.quantity + delta }) }

/-! ## Barcode allocator (src/routes/inventory.js, generateBarcode) -/

/-- One attempt of the generator:
`[...Array(12)].map(() => Math.floor(Math.random() * 10)).join('')`,
drawing the 12 digits of attempt `k` from positions `12k .. 12k+11`
of the random stream. -/
def mkBarcode (rand : Nat → Nat) (attempt : Nat) : String :=
  String.join ((List.range 12).map (fun i => toString (rand (attempt * 12 + i) % 10)))

/-- `await Inventory.findOne(\x7b barcode \x7d)` viewed as a Bool. -/
def barcodeExists (inv : List (Nat × InventoryItem)) (b : String) : Bool :=
  inv.any (fun p => p.2.barcode == b)

/-- The retry loop of `generateBarcode`, structurally recursive on the
number of remaining attempts; `attempt` is the index of the next draw. -/
def generateBarcodeAux (inv : List (Nat × InventoryItem)) (rand : Nat → Nat) :
    Nat → Nat → Except String String
  | _, 0 => .error "Could not generate a unique barcode after 100 attempts."
  | attempt, r + 1 =>
    let b := mkBarcode rand attempt
    if barcodeExists inv b then generateBarcodeAux inv rand (attempt + 1) r
    else .ok b

/-- `generateBarcode` with `maxAttempts = 100`. -/
def generateBarcode (inv : List (Nat × InventoryItem)) (rand : Nat → Nat) :
    Except String String :=
  generateBarcodeAux inv rand 0 100

/-! ## Stock Ledger Reconciler (src/routes/delivery.js) -/

inductive RecordResult where
  | notFound
  | insufficientStock (msg : String)
  | success (deliveryId : Nat)
deriving DecidableEq

/-- POST /record (src/routes/delivery.js lines 253-294). `q` is
`parseInt(quantityDelivered)`. The delivery document is persisted before
the `$inc` on the inventory item, as in the source. -/
def recordDelivery (db : DB) (inventoryId : Nat) (barcode customerName : String)
    (q : Int) (notes : String) : RecordResult × DB :=
  match findItem db inventoryId with
  | none => (.notFound, db)
  | some item =>
    if item.quantity < q then
      (.insufficientStock
        ("Insufficient stock for " ++ item.itemName ++ ". Available: " ++
          toString item.quantity ++ ", Requested: " ++ toString q), db)
    else
      let d : Delivery :=
        { inventoryItem := some inventoryId, barcode := barcode,
          customerName := customerName, quantityDelivered := q, notes := notes }
      let db1 : DB :=
        { db with deliveries := db.deliveries ++ [(db.nextId, d)],
                  nextId := db.nextId + 1 }
      (.success db.nextId, incItemQuantity db1 inventoryId (-q))

inductive UpdateResult where
  | notFound
  | insufficientStock (msg : String)
  | danglingReference
  | success
deriving DecidableEq

/-- `delivery.customerName = ...; delivery.quantityDelivered = ...;
delivery.notes = ...; await delivery.save()`. -/
def saveDeliveryFields (db : DB) (id : Nat) (customerName : String) (q : Int)
    (notes : String) : DB :=
  { db with
      deliveries := updateByKey db.deliveries id
        (fun d => { d with customerName := customerName,
                           quantityDelivered := q, notes := notes }) }

/-- POST /update/:id (src/routes/delivery.js lines 358-404). `q` is
`parseInt(quantityDelivered)`. The stock branch runs only when the parsed
quantity differs from the stored one, and only when the delivery's
`inventoryItem` reference is set. -/
def updateDelivery (db : DB) (deliveryId : Nat) (customerName : String)
    (q : Int) (notes : String) : UpdateResult × DB :=
  match findDelivery db deliveryId with
  | none => (.notFound, db)
  | some d =>
    if q ≠ d.quantityDelivered then
      let diff := q - d.quantityDelivered
      match d.inventoryItem with
      | none => (.success, saveDeliveryFields db deliveryId customerName q notes)
      | some invId =>
        match findItem db invId with
        | none => (.danglingReference, db)
        | some item =>
          if diff < 0 ∨ item.quantity ≥ diff then
            (.success,
              saveDeliveryFields (incItemQuantity db invId (-diff))
                deliveryId customerName q notes)
          else
            (.insufficientStock
              ("Insufficient stock for quantity update. Available: " ++
                toString item.quantity ++ ", Additional needed: " ++
                toString diff), db)
    else (.success, saveDeliveryFields db deliveryId customerName q notes)

inductive DeleteResult where
  | notFound
  | success
deriving DecidableEq

/-- POST /delete/:id (src/routes/delivery.js lines 407-431). When the
delivery's `inventoryItem` reference is set, the `$inc` restoration is
issued (a no-op if the referenced item no longer exists); then the
delivery document is removed. -/
def deleteDelivery (db : DB) (deliveryId : Nat) : DeleteResult × DB :=
  match findDelivery db deliveryId with
  | none => (.notFound, db)
  | some d =>
    let db1 :=
      match d.inventoryItem with
      | some invId => incItemQuantity db invId d.quantityDelivered
      | none => db
    (.success,
      { db1 with deliveries := db1.deliveries.filter (fun p => p.1 != deliveryId) })

/-! ## Catalog ingestion (src/routes/inventory.js, POST /add) -/

structure IngestAcc where
  inv : List (Nat × InventoryItem)
  nextId : Nat
  itemsCreated : Nat
  itemsUpdated : Nat
  aborted : Bool
deriving DecidableEq

/-- `Inventory.findOne(\x7b itemName, category, size, color \x7d)`. -/
def findExact (inv : List (Nat × InventoryItem))
    (itemName category size color : String) : Option (Nat × InventoryItem) :=
  inv.find? (fun p =>
    p.2.itemName == itemName && p.2.category == category &&
    p.2.size == size && p.2.color == color)

/-- One iteration of the POST /add loop (src/routes/inventory.js lines
103-128). `qty` is the parsed quantity: `none` models NaN from a
non-numeric field; an out-of-range index is turned into `some 0` by the
caller (`quantityArray[i] ?? 0`). `if (!qty) continue` skips 0 and NaN.
A `generateBarcode` failure is the thrown error reaching the route's
catch: the loop stops, modelled by the `aborted` flag. -/
def ingestStep (itemName category color : String) (price : Rat)
    (description : String) (rand : Nat → Nat) (acc : IngestAcc)
    (size : String) (qty : Option Int) : IngestAcc :=
  if acc.aborted then acc
  else if qty = some 0 ∨ qty = none then acc
  else
    let n := qty.getD 0
    match findExact acc.inv itemName category size color with
    | some (id, _) =>
      { acc with
          inv := updateByKey acc.inv id
            (fun it => { it with quantity := it.quantity + n }),
          itemsUpdated := acc.itemsUpdated + 1 }
    | none =>
      match generateBarcode acc.inv rand with
      | .error _ => { acc with aborted := true }
      | .ok b =>
        { acc with
            inv := acc.inv ++
              [(acc.nextId,
                { itemName := itemName, category := category, size := size,
                  color := color, barcode := b, quantity := n,
                  price := price, description := description })],
            nextId := acc.nextId + 1,
            itemsCreated := acc.itemsCreated + 1 }

/-- The whole POST /add loop over the parallel size/quantity arrays;
`rands i` is the digit stream available to the allocator call of
iteration `i`. -/
def ingest (itemName category color : String) (price : Rat)
    (description : String) (rands : Nat → Nat → Nat)
    (sizes : List String) (quantities : List (Option Int))
    (acc : IngestAcc) : IngestAcc :=
  (List.range sizes.length).foldl
    (fun a i =>
      ingestStep itemName category color price description (rands i) a
        ((sizes.get? i).getD "") ((quantities.get? i).getD (some 0)))
    acc

/-! ## State invariants used by the claims -/

/-- Every inventory quantity is non-negative. -/
def invNonneg (db : DB) : Prop :=
  ∀ p ∈ db.inventory, 0 ≤ p.2.quantity

/-- Every stored delivery's quantityDelivered is non-negative. -/
def delNonneg (db : DB) : Prop :=
  ∀ p ∈ db.deliveries, 0 ≤ p.2.quantityDelivered

/-- Document ids in a collection are pairwise distinct (a database
guarantee for Mongo object ids). -/
def keysNodup {α : Type} (l : List (Nat × α)) : Prop :=
  (l.map Prod.fst).Nodup

instance : DecidablePred (invNonneg) := fun db =>
  inferInstanceAs (Decidable (∀ p ∈ db.inventory, 0 ≤ p.2.quantity))

instance : DecidablePred (delNonneg) := fun db =>
  inferInstanceAs (Decidable (∀ p ∈ db.deliveries, 0 ≤ p.2.quantityDelivered))

instance {α : Type} : DecidablePred (keysNodup (α := α)) := fun l =>
  inferInstanceAs (Decidable (l.map Prod.fst).Nodup)

/-! ## Helper lemmas about the collection primitives -/

theorem findPair_updateByKey {α : Type} (l : List (Nat × α)) (id : Nat)
    (f : α → α) :
    findPair (updateByKey l id f) id =
      (findPair l id).map (fun p => (p.1, f p.2)) := by
  induction l with
  | nil => rfl
  | cons x xs ih =>
    by_cases hx : (x.1 == id) = true
    · simp [findPair, updateByKey, List.find?, hx] at ih ⊢
    · simp [findPair, updateByKey, List.find?, hx] at ih ⊢
      exact ih

theorem updateByKey_of_findPair_none {α : Type} {l : List (Nat × α)} {id : Nat}
    (f : α → α) (h : findPair l id = none) : updateByKey l id f = l := by
  induction l with
  | nil => rfl
  | cons x xs ih =>
    by_cases hx : (x.1 == id) = true
    · exfalso
      simp [findPair, List.find?, hx] at h
    · simp only [findPair, List.find?, hx] at h
      simp only [updateByKey, List.map] at ih ⊢
      rw [if_neg hx, ih h]

theorem mem_updateByKey {α : Type} {l : List (Nat × α)} {id : Nat} {f : α → α}
    {p : Nat × α} (h : p ∈ updateByKey l id f) :
    p ∈ l ∨ ∃ q ∈ l, q.1 = id ∧ p = (q.1, f q.2) := by
  rcases List.mem_map.mp h with ⟨q, hq, hfq⟩
  by_cases hk : (q.1 == id) = true
  · right
    exact ⟨q, hq, by simpa using hk, by simp [← hfq, hk]⟩
  · left
    have hqp : q = p := by simpa [hk] using hfq
    exact hqp ▸ hq

theorem updateByKey_updateByKey {α : Type} (l : List (Nat × α)) (id : Nat)
    (f g : α → α) :
    updateByKey (updateByKey l id f) id g =
      updateByKey l id (fun a => g (f a)) := by
  unfold updateByKey
  rw [List.map_map]
  apply List.map_congr_left
  intro p _
  by_cases hk : (p.1 == id) = true <;> simp [Function.comp, hk]

theorem updateByKey_congr_id {α : Type} (l : List (Nat × α)) (id : Nat)
    (f : α → α) (h : ∀ a, f a = a) : updateByKey l id f = l := by
  unfold updateByKey
  rw [List.map_congr_left, List.map_id]
  intro p _
  by_cases hk : (p.1 == id) = true <;> simp [hk, h]

theorem findPair_mem {α : Type} {l : List (Nat × α)} {id : Nat} {p : Nat × α}
    (h : findPair l id = some p) : p ∈ l ∧ p.1 = id := by
  refine ⟨List.mem_of_find?_eq_some h, ?_⟩
  have := List.find?_some h
  simpa using this

theorem findPair_of_keysNodup {α : Type} {l : List (Nat × α)} (h : keysNodup l)
    {p : Nat × α} (hp : p ∈ l) : findPair l p.1 = some p := by
  induction l with
  | nil => cases hp
  | cons x xs ih =>
    have hnd := (List.nodup_cons.mp h)
    rcases List.mem_cons.mp hp with rfl | hmem
    · simp [findPair, List.find?]
    · have hne : ¬(x.1 == p.1) = true := by
        simp only [beq_iff_eq]
        intro hcontra
        exact hnd.1 (hcontra ▸ List.mem_map_of_mem Prod.fst hmem)
      simpa [findPair, List.find?, hne] using ih hnd.2 hmem

theorem findPair_append_fresh {α : Type} (l : List (Nat × α)) (id : Nat)
    (a : α) (h : ∀ p ∈ l, p.1 ≠ id) :
    findPair (l ++ [(id, a)]) id = some (id, a) := by
  induction l with
  | nil => simp [findPair, List.find?]
  | cons x xs ih =>
    have hx : ¬(x.1 == id) = true := by
      simpa using h x (List.mem_cons_self x xs)
    simpa [findPair, List.find?, hx] using
      ih (fun p hp => h p (List.mem_cons_of_mem x hp))

theorem filter_append_fresh {α : Type} (l : List (Nat × α)) (id : Nat)
    (a : α) (h : ∀ p ∈ l, p.1 ≠ id) :
    (l ++ [(id, a)]).filter (fun p => p.1 != id) = l := by
  rw [List.filter_append]
  have h1 : l.filter (fun p => p.1 != id) = l :=
    List.filter_eq_self.mpr (fun p hp => by simpa using h p hp)
  have h2 : ([(id, a)] : List (Nat × α)).filter (fun p => p.1 != id) = [] := by
    simp
  rw [h1, h2, List.append_nil]

theorem findPair_filter_self_none {α : Type} (l : List (Nat × α)) (id : Nat) :
    findPair (l.filter (fun p => p.1 != id)) id = none := by
  apply List.find?_eq_none.mpr
  intro p hp
  have := (List.mem_filter.mp hp).2
  simpa using this

theorem findItem_incItemQuantity (db : DB) (id : Nat) (delta : Int) :
    findItem (incItemQuantity db id delta) id =
      (findItem db id).map (fun it => { it with quantity := it.quantity + delta }) := by
  unfold findItem incItemQuantity
  rw [findPair_updateByKey]
  cases findPair db.inventory id <;> rfl

theorem findDelivery_saveDeliveryFields (db : DB) (id : Nat)
    (customerName : String) (q : Int) (notes : String) :
    findDelivery (saveDeliveryFields db id customerName q notes) id =
      (findDelivery db id).map
        (fun d => { d with customerName := customerName,
                           quantityDelivered := q, notes := notes }) := by
  unfold findDelivery saveDeliveryFields
  rw [findPair_updateByKey]
  cases findPair db.deliveries id <;> rfl

theorem nonneg_updateByKey_quantity {l : List (Nat × InventoryItem)} {id : Nat}
    {delta : Int} (h1 : ∀ p ∈ l, 0 ≤ p.2.quantity)
    (h2 : ∀ p ∈ l, p.1 = id → 0 ≤ p.2.quantity + delta) :
    ∀ p ∈ updateByKey l id (fun it => { it with quantity := it.quantity + delta }),
      0 ≤ p.2.quantity := by
  intro p hp
  rcases mem_updateByKey hp with hmem | ⟨q, hq, hid, rfl⟩
  · exact h1 p hmem
  · exact h2 q hq hid

/-! ## Barcode string shape -/

theorem digit_toString (d : Nat) (h : d < 10) :
    (toString d).length = 1 ∧ (toString d).data.all Char.isDigit = true := by
  interval_cases d <;> exact ⟨by decide, by decide⟩

theorem foldl_append_length (l : List String) : ∀ s : String,
    (l.foldl (fun a b => a ++ b) s).length = s.length + (l.map String.length).sum := by
  induction l with
  | nil => intro s; simp
  | cons x xs ih =>
    intro s
    simp only [List.foldl, List.map, List.sum_cons, ih, String.length_append]
    omega

theorem join_length (l : List String) :
    (String.join l).length = (l.map String.length).sum := by
  have h := foldl_append_length l ""
  simpa [String.join] using h

theorem foldl_append_data (l : List String) : ∀ s : String,
    (l.foldl (fun a b => a ++ b) s).data = s.data ++ (l.map String.data).flatten := by
  induction l with
  | nil => intro s; simp
  | cons x xs ih =>
    intro s
    simp only [List.foldl, List.map, List.flatten, ih, String.data_append]
    simp

theorem join_data (l : List String) :
    (String.join l).data = (l.map String.data).flatten := by
  have h := foldl_append_data l ""
  simpa [String.join] using h

theorem mkBarcode_shape (rand : Nat → Nat) (k : Nat) :
    (mkBarcode rand k).length = 12 ∧
    (mkBarcode rand k).data.all Char.isDigit = true := by
  constructor
  · unfold mkBarcode
    rw [join_length, List.map_map]
    have h : ∀ i ∈ List.range 12,
        (String.length ∘ fun i => toString (rand (k * 12 + i) % 10)) i = 1 := by
      intro i _
      exact (digit_toString _ (Nat.mod_lt _ (by norm_num))).1
    rw [List.map_congr_left h]
    decide
  · unfold mkBarcode
    rw [List.all_eq_true]
    intro c hc
    rw [join_data, List.mem_flatten] at hc
    obtain ⟨lc, hlc, hcmem⟩ := hc
    rw [List.map_map, List.mem_map] at hlc
    obtain ⟨i, _, rfl⟩ := hlc
    have hall := (digit_toString (rand (k * 12 + i) % 10)
      (Nat.mod_lt _ (by norm_num))).2
    rw [List.all_eq_true] at hall
    exact hall c hcmem

/-! ## Allocator retry loop -/

theorem generateBarcodeAux_ok (inv : List (Nat × InventoryItem))
    (rand : Nat → Nat) :
    ∀ (r a : Nat) (b : String), generateBarcodeAux inv rand a r = .ok b →
      barcodeExists inv b = false ∧ ∃ k, b = mkBarcode rand k := by
  intro r
  induction r with
  | zero =>
    intro a b h
    exact absurd h (by simp [generateBarcodeAux])
  | succ n ih =>
    intro a b h
    simp only [generateBarcodeAux] at h
    by_cases hex : barcodeExists inv (mkBarcode rand a) = true
    · rw [if_pos hex] at h
      exact ih (a + 1) b h
    · rw [if_neg hex] at h
      cases h
      exact ⟨Bool.not_eq_true _ ▸ hex, a, rfl⟩

theorem generateBarcodeAux_error_iff (inv : List (Nat × InventoryItem))
    (rand : Nat → Nat) :
    ∀ (r a : Nat), (∃ e, generateBarcodeAux inv rand a r = .error e) ↔
      ∀ j < r, barcodeExists inv (mkBarcode rand (a + j)) = true := by
  intro r
  induction r with
  | zero =>
    intro a
    constructor
    · intro _ j hj
      omega
    · intro _
      exact ⟨_, rfl⟩
  | succ n ih =>
    intro a
    by_cases hex : barcodeExists inv (mkBarcode rand a) = true
    · simp only [generateBarcodeAux, hex, if_true]
      constructor
      · intro he j hj
        match j with
        | 0 => simpa using hex
        | Nat.succ j =>
          have hj' : j < n := by omega
          have := (ih (a + 1)).mp he j hj'
          rw [show a + (j + 1) = a + 1 + j by omega]
          exact this
      · intro hall
        apply (ih (a + 1)).mpr
        intro j hj
        have := hall (j + 1) (by omega)
        rw [show a + 1 + j = a + (j + 1) by omega]
        exact this
    · simp only [generateBarcodeAux, hex, if_neg]
      constructor
      · rintro ⟨e, he⟩
        simp at he
      · intro hall
        exfalso
        exact hex (by simpa using hall 0 (by omega))

/-! ## Claims about the allocator -/

/-- C5: for every catalog state, generateBarcode returns a 12-digit numeric
string (digits 0-9, leading zeros permitted) that equals no existing item's
barcode, and it fails with the exhaustion error exactly when each of the
100 attempts produced a value already in use. -/
theorem claim_C5 (inv : List (Nat × InventoryItem)) (rand : Nat → Nat) :
    (∀ b, generateBarcode inv rand = .ok b →
      b.length = 12 ∧ b.data.all Char.isDigit = true ∧
      ∀ p ∈ inv, p.2.barcode ≠ b) ∧
    ((∃ e, generateBarcode inv rand = .error e) ↔
      ∀ k < 100, barcodeExists inv (mkBarcode rand k) = true) := by
  constructor
  · intro b hb
    obtain ⟨hex, k, rfl⟩ := generateBarcodeAux_ok inv rand 100 0 b hb
    refine ⟨(mkBarcode_shape rand k).1, (mkBarcode_shape rand k).2, ?_⟩
    intro p hp hbe
    rw [barcodeExists, List.any_eq_false] at hex
    exact hex p hp (by simp [hbe])
  · have h := generateBarcodeAux_error_iff inv rand 100 0
    simpa using h

/-- Witness for C5 at the empty catalog and the all-zero digit stream,
where the first attempt succeeds with "000000000000". -/
theorem claim_C5_witness :
    ("000000000000" : String).length = 12 ∧
    ("000000000000" : String).data.all Char.isDigit = true ∧
    ∀ p ∈ ([] : List (Nat × InventoryItem)), p.2.barcode ≠ "000000000000" :=
  (claim_C5 [] (fun _ => 0)).1 "000000000000" rfl

/-! ## Concrete fixtures used by witnesses and counterexamples -/

def wItem : InventoryItem :=
  { itemName := "Polo", category := "T-Shirt", size := "M", color := "Blue",
    barcode := "123456789012", quantity := 5, price := 0, description := "" }

def wdb : DB := { inventory := [(1, wItem)], deliveries := [], nextId := 7 }

/-! ## Claims about record (POST /record) -/

/-- C2: with the inventory item found, record fails with InsufficientStock
exactly when the requested quantity exceeds the stock, with the exact
user-facing message carrying the item name, the available quantity and the
requested quantity, and leaves the whole state unchanged; otherwise it
persists the new delivery record and then decrements the item's quantity
by the requested amount. -/
theorem claim_C2 (db : DB) (invId : Nat) (bc customer : String) (q : Int)
    (notes : String) (item : InventoryItem)
    (hfind : findItem db invId = some item) :
    (item.quantity < q →
      recordDelivery db invId bc customer q notes =
        (.insufficientStock
          ("Insufficient stock for " ++ item.itemName ++ ". Available: " ++
            toString item.quantity ++ ", Requested: " ++ toString q), db)) ∧
    (q ≤ item.quantity →
      (recordDelivery db invId bc customer q notes).1 = .success db.nextId ∧
      (recordDelivery db invId bc customer q notes).2.deliveries =
        db.deliveries ++ [(db.nextId,
          { inventoryItem := some invId, barcode := bc,
            customerName := customer, quantityDelivered := q,
            notes := notes })] ∧
      findItem (recordDelivery db invId bc customer q notes).2 invId =
        some { item with quantity := item.quantity - q }) := by
  constructor
  · intro hlt
    simp only [recordDelivery, hfind, if_pos hlt]
  · intro hle
    have hnlt : ¬item.quantity < q := not_lt.mpr hle
    simp only [recordDelivery, hfind, if_neg hnlt]
    refine ⟨by trivial, by trivial, ?_⟩
    have h1 : findItem
        { db with deliveries := db.deliveries ++ [(db.nextId,
            { inventoryItem := some invId, barcode := bc,
              customerName := customer, quantityDelivered := q,
              notes := notes })], nextId := db.nextId + 1 } invId =
        some item := hfind
    rw [findItem_incItemQuantity, h1]
    simp [sub_eq_add_neg]

/-- Witness for C2 (Scenario A): item with stock 5, delivery of 3 succeeds
and leaves stock 2. -/
theorem claim_C2_witness :
    (recordDelivery wdb 1 "123456789012" "Alice" 3 "").1 = .success wdb.nextId ∧
    (recordDelivery wdb 1 "123456789012" "Alice" 3 "").2.deliveries =
      wdb.deliveries ++ [(wdb.nextId,
        { inventoryItem := some 1, barcode := "123456789012",
          customerName := "Alice", quantityDelivered := 3, notes := "" })] ∧
    findItem (recordDelivery wdb 1 "123456789012" "Alice" 3 "").2 1 =
      some { wItem with quantity := wItem.quantity - 3 } :=
  (claim_C2 wdb 1 "123456789012" "Alice" 3 "" wItem rfl).2 (by decide)

/-- C9 as stated is false: record does not enforce positivity of the
delivered quantity. With stock 5 a request of 0 passes the stock check and
creates a DeliveryRecord whose quantityDelivered is 0, not positive. -/
theorem claim_C9_counterexample :
    (recordDelivery wdb 1 "123456789012" "Alice" 0 "").1 = .success 7 ∧
    ((recordDelivery wdb 1 "123456789012" "Alice" 0 "").2.deliveries.getLast?).map
      (fun p => p.2.quantityDelivered) = some 0 ∧
    ¬(0 < (0 : Int)) := by decide

/-- C9 amended: whenever record succeeds, the DeliveryRecord it appends
carries the requested quantity, and that quantity is at most the
referenced item's stock at that moment (positivity is not enforced). -/
theorem claim_C9_amended (db : DB) (invId : Nat) (bc customer : String)
    (q : Int) (notes : String) (did : Nat)
    (h : (recordDelivery db invId bc customer q notes).1 = .success did) :
    ∃ item, findItem db invId = some item ∧
      (recordDelivery db invId bc customer q notes).2.deliveries.getLast? =
        some (db.nextId,
          { inventoryItem := some invId, barcode := bc,
            customerName := customer, quantityDelivered := q,
            notes := notes }) ∧
      q ≤ item.quantity := by
  cases hfind : findItem db invId with
  | none =>
    rw [recordDelivery] at h
    simp [hfind] at h
  | some item =>
    refine ⟨item, rfl, ?_⟩
    by_cases hlt : item.quantity < q
    · rw [recordDelivery] at h
      simp [hfind, hlt] at h
    · constructor
      · simp only [recordDelivery, hfind, if_neg hlt]
        exact List.getLast?_concat _
      · exact le_of_not_lt hlt

/-- Witness for the amended C9 at the concrete store: recording 3 of an
item with stock 5 appends a delivery of 3 with 3 at most 5. -/
theorem claim_C9_witness :
    ∃ item, findItem wdb 1 = some item ∧
      (recordDelivery wdb 1 "123456789012" "Alice" 3 "").2.deliveries.getLast? =
        some (wdb.nextId,
          { inventoryItem := some 1, barcode := "123456789012",
            customerName := "Alice", quantityDelivered := 3, notes := "" }) ∧
      (3 : Int) ≤ item.quantity :=
  claim_C9_amended wdb 1 "123456789012" "Alice" 3 "" 7 (by decide)

/-! ## Claims about update (POST /update/:id) -/

theorem findItem_incItemQuantity_some {db : DB} {id : Nat} (delta : Int)
    {item : InventoryItem} (h : findItem db id = some item) :
    findItem (incItemQuantity db id delta) id =
      some { item with quantity := item.quantity + delta } := by
  rw [findItem_incItemQuantity, h]
  rfl

theorem findDelivery_saveDeliveryFields_some {db : DB} {id : Nat}
    (c : String) (q : Int) (n : String) {d : Delivery}
    (h : findDelivery db id = some d) :
    findDelivery (saveDeliveryFields db id c q n) id =
      some { d with customerName := c, quantityDelivered := q, notes := n } := by
  rw [findDelivery_saveDeliveryFields, h]
  rfl

/-- C3: on an existing delivery whose referenced item exists, with
diff = newQuantity - oldQuantity: a negative diff always succeeds and the
item's quantity grows by -diff; a positive diff succeeds exactly when the
item's quantity is at least diff (decrementing by diff) and otherwise
fails with InsufficientStock leaving the whole state unchanged; a zero
diff updates the delivery's fields with no stock adjustment. -/
theorem claim_C3 (db : DB) (did : Nat) (c : String) (q : Int) (n : String)
    (d : Delivery) (invId : Nat) (item : InventoryItem)
    (hd : findDelivery db did = some d)
    (href : d.inventoryItem = some invId)
    (hit : findItem db invId = some item) :
    (q - d.quantityDelivered < 0 →
      (updateDelivery db did c q n).1 = .success ∧
      findItem (updateDelivery db did c q n).2 invId =
        some { item with quantity := item.quantity + (d.quantityDelivered - q) } ∧
      findDelivery (updateDelivery db did c q n).2 did =
        some { d with customerName := c, quantityDelivered := q,
                      notes := n }) ∧
    (0 < q - d.quantityDelivered →
      (item.quantity ≥ q - d.quantityDelivered →
        (updateDelivery db did c q n).1 = .success ∧
        findItem (updateDelivery db did c q n).2 invId =
          some { item with quantity := item.quantity - (q - d.quantityDelivered) } ∧
        findDelivery (updateDelivery db did c q n).2 did =
          some { d with customerName := c, quantityDelivered := q,
                        notes := n }) ∧
      (item.quantity < q - d.quantityDelivered →
        updateDelivery db did c q n =
          (.insufficientStock
            ("Insufficient stock for quantity update. Available: " ++
              toString item.quantity ++ ", Additional needed: " ++
              toString (q - d.quantityDelivered)), db))) ∧
    (q = d.quantityDelivered →
      (updateDelivery db did c q n).1 = .success ∧
      (updateDelivery db did c q n).2.inventory = db.inventory ∧
      findDelivery (updateDelivery db did c q n).2 did =
        some { d with customerName := c, quantityDelivered := q,
                      notes := n }) := by
  have hsave : ∀ db' : DB, findDelivery db' did = some d →
      findDelivery (saveDeliveryFields db' did c q n) did =
        some { d with customerName := c, quantityDelivered := q,
                      notes := n } :=
    fun db' h => findDelivery_saveDeliveryFields_some c q n h
  refine ⟨?_, ?_, ?_⟩
  · intro hneg
    have hne : q ≠ d.quantityDelivered := by omega
    simp only [updateDelivery, hd, href, hit, if_pos hne,
      if_pos (Or.inl hneg)]
    refine ⟨by trivial, ?_, ?_⟩
    · have h1 : findItem
          (saveDeliveryFields
            (incItemQuantity db invId (-(q - d.quantityDelivered))) did c q n)
          invId =
          findItem (incItemQuantity db invId (-(q - d.quantityDelivered)))
            invId := rfl
      rw [h1, findItem_incItemQuantity_some (-(q - d.quantityDelivered)) hit]
      have harith : item.quantity + -(q - d.quantityDelivered) =
          item.quantity + (d.quantityDelivered - q) := by ring
      rw [harith]
    · have h3 : findDelivery
          (incItemQuantity db invId (-(q - d.quantityDelivered))) did =
          some d := hd
      rw [hsave _ h3]
      simp [href]
  · intro hpos
    have hne : q ≠ d.quantityDelivered := by omega
    constructor
    · intro hge
      simp only [updateDelivery, hd, href, hit, if_pos hne,
        if_pos (Or.inr hge)]
      refine ⟨by trivial, ?_, ?_⟩
      · have h1 : findItem
            (saveDeliveryFields
              (incItemQuantity db invId (-(q - d.quantityDelivered))) did c q n)
            invId =
            findItem (incItemQuantity db invId (-(q - d.quantityDelivered)))
              invId := rfl
        rw [h1, findItem_incItemQuantity_some (-(q - d.quantityDelivered)) hit]
        have harith : item.quantity + -(q - d.quantityDelivered) =
            item.quantity - (q - d.quantityDelivered) := by ring
        rw [harith]
      · have h3 : findDelivery
            (incItemQuantity db invId (-(q - d.quantityDelivered))) did =
            some d := hd
        rw [hsave _ h3]
        simp [href]
    · intro hlt
      have hcond : ¬(q - d.quantityDelivered < 0 ∨
          item.quantity ≥ q - d.quantityDelivered) := by omega
      simp only [updateDelivery, hd, href, hit, if_pos hne, if_neg hcond]
  · intro heq
    have hne : ¬(q ≠ d.quantityDelivered) := by omega
    simp only [updateDelivery, hd, if_neg hne]
    refine ⟨by trivial, by trivial, ?_⟩
    rw [hsave _ hd]

def c3item : InventoryItem := { wItem with quantity := 2 }

def c3del : Delivery :=
  { inventoryItem := some 1, barcode := "123456789012",
    customerName := "Bob", quantityDelivered := 3, notes := "" }

def c3db : DB :=
  { inventory := [(1, c3item)], deliveries := [(4, c3del)], nextId := 5 }

/-- Witness for C3 (Scenario C): delivery of 3 against an item with stock
2, updated to 5: diff = 2 is covered by the stock, the update succeeds and
the stock drops to 0. -/
theorem claim_C3_witness :
    (updateDelivery c3db 4 "Bob" 5 "").1 = .success ∧
    findItem (updateDelivery c3db 4 "Bob" 5 "").2 1 =
      some { c3item with
        quantity := c3item.quantity - (5 - c3del.quantityDelivered) } ∧
    findDelivery (updateDelivery c3db 4 "Bob" 5 "").2 4 =
      some { c3del with customerName := "Bob", quantityDelivered := 5,
                        notes := "" } :=
  ((claim_C3 c3db 4 "Bob" 5 "" c3del 1 c3item rfl rfl rfl).2.1
    (by decide)).1 (by decide)

def c8del : Delivery :=
  { inventoryItem := some 99, barcode := "123456789012",
    customerName := "Bob", quantityDelivered := 5, notes := "" }

def c8db : DB :=
  { inventory := [], deliveries := [(1, c8del)], nextId := 2 }

/-- C8 as stated is false: when the submitted quantity equals the stored
one, the dangling-item check is skipped entirely and the update succeeds
even though the referenced InventoryItem no longer exists. -/
theorem claim_C8_counterexample :
    findDelivery c8db 1 = some c8del ∧
    c8del.inventoryItem = some 99 ∧
    findItem c8db 99 = none ∧
    (updateDelivery c8db 1 "Bob" 5 "x").1 = .success := by decide

/-- C8 amended: on a delivery whose referenced item no longer exists,
update fails with DanglingReference (with no state change) exactly when
the new quantity differs from the stored one; when they are equal the
operation succeeds, updating the delivery's fields and leaving the
inventory untouched. -/
theorem claim_C8_amended (db : DB) (did : Nat) (c : String) (q : Int)
    (n : String) (d : Delivery) (invId : Nat)
    (hd : findDelivery db did = some d)
    (href : d.inventoryItem = some invId)
    (hit : findItem db invId = none) :
    (q ≠ d.quantityDelivered →
      updateDelivery db did c q n = (.danglingReference, db)) ∧
    (q = d.quantityDelivered →
      (updateDelivery db did c q n).1 = .success ∧
      (updateDelivery db did c q n).2.inventory = db.inventory ∧
      findDelivery (updateDelivery db did c q n).2 did =
        some { d with customerName := c, quantityDelivered := q,
                      notes := n }) := by
  constructor
  · intro hne
    simp only [updateDelivery, hd, href, hit, if_pos hne]
  · intro heq
    have hne : ¬(q ≠ d.quantityDelivered) := by omega
    simp only [updateDelivery, hd, if_neg hne]
    exact ⟨by trivial, by trivial,
      findDelivery_saveDeliveryFields_some c q n hd⟩

/-- Witness for the amended C8: updating the dangling delivery to a
different quantity (7 instead of 5) fails with DanglingReference and
leaves the state unchanged. -/
theorem claim_C8_witness :
    updateDelivery c8db 1 "Bob" 7 "x" = (.danglingReference, c8db) :=
  (claim_C8_amended c8db 1 "Bob" 7 "x" c8del 99 rfl rfl rfl).1 (by decide)

/-! ## Claims about delete (POST /delete/:id) -/

/-- C4: deleting an existing delivery succeeds; when the referenced item
still exists its quantity is incremented by the delivery's
quantityDelivered with no upper bound, and when the referenced item no
longer exists the inventory is left untouched; in both cases the delivery
record is removed. -/
theorem claim_C4 (db : DB) (did : Nat) (d : Delivery) (invId : Nat)
    (hd : findDelivery db did = some d)
    (href : d.inventoryItem = some invId) :
    (∀ item, findItem db invId = some item →
      (deleteDelivery db did).1 = .success ∧
      findItem (deleteDelivery db did).2 invId =
        some { item with quantity := item.quantity + d.quantityDelivered } ∧
      findDelivery (deleteDelivery db did).2 did = none) ∧
    (findItem db invId = none →
      (deleteDelivery db did).1 = .success ∧
      (deleteDelivery db did).2.inventory = db.inventory ∧
      findDelivery (deleteDelivery db did).2 did = none) := by
  constructor
  · intro item hit
    simp only [deleteDelivery, hd, href]
    refine ⟨by trivial, ?_, ?_⟩
    · have h1 : findItem
          { incItemQuantity db invId d.quantityDelivered with
            deliveries := (incItemQuantity db invId
              d.quantityDelivered).deliveries.filter (fun p => p.1 != did) }
          invId =
          findItem (incItemQuantity db invId d.quantityDelivered) invId := rfl
      rw [h1, findItem_incItemQuantity_some d.quantityDelivered hit]
    · show ((findPair ((incItemQuantity db invId
        d.quantityDelivered).deliveries.filter (fun p => p.1 != did)) did).map
          Prod.snd) = none
      rw [findPair_filter_self_none]
      rfl
  · intro hit
    have hfp : findPair db.inventory invId = none := by
      cases hfp2 : findPair db.inventory invId with
      | none => rfl
      | some p =>
        rw [findItem, hfp2] at hit
        simp at hit
    simp only [deleteDelivery, hd, href]
    refine ⟨by trivial, ?_, ?_⟩
    · show updateByKey db.inventory invId
        (fun it => { it with quantity := it.quantity + d.quantityDelivered }) =
        db.inventory
      exact updateByKey_of_findPair_none _ hfp
    · show ((findPair ((incItemQuantity db invId
        d.quantityDelivered).deliveries.filter (fun p => p.1 != did)) did).map
          Prod.snd) = none
      rw [findPair_filter_self_none]
      rfl

/-- Witness for C4 (Scenario E): deleting a delivery whose referenced item
was removed succeeds, performs no stock adjustment, and removes the
delivery record. -/
theorem claim_C4_witness :
    (deleteDelivery c8db 1).1 = .success ∧
    (deleteDelivery c8db 1).2.inventory = c8db.inventory ∧
    findDelivery (deleteDelivery c8db 1).2 1 = none :=
  (claim_C4 c8db 1 c8del 99 rfl rfl).2 rfl

/-! ## Round trip record then delete -/

/-- C6: a successful record of quantity q immediately followed by deleting
the created delivery record restores the inventory to exactly its
pre-record state (every item's quantity equals its value before the
record call). -/
theorem claim_C6 (db : DB) (invId : Nat) (bc c : String) (q : Int)
    (n : String) (did : Nat)
    (hfresh : ∀ p ∈ db.deliveries, p.1 ≠ db.nextId)
    (hrec : (recordDelivery db invId bc c q n).1 = .success did) :
    (deleteDelivery (recordDelivery db invId bc c q n).2 did).1 = .success ∧
    (deleteDelivery (recordDelivery db invId bc c q n).2 did).2.inventory =
      db.inventory := by
  cases hfind : findItem db invId with
  | none =>
    rw [recordDelivery] at hrec
    simp [hfind] at hrec
  | some item =>
    by_cases hlt : item.quantity < q
    · rw [recordDelivery] at hrec
      simp [hfind, hlt] at hrec
    · have hdid : did = db.nextId := by
        rw [recordDelivery] at hrec
        simp only [hfind, if_neg hlt] at hrec
        exact (RecordResult.success.inj hrec).symm
      subst hdid
      simp only [recordDelivery, hfind, if_neg hlt]
      have hfdel : findDelivery
          (incItemQuantity
            { db with
                deliveries := db.deliveries ++ [(db.nextId,
                  { inventoryItem := some invId, barcode := bc,
                    customerName := c, quantityDelivered := q, notes := n })],
                nextId := db.nextId + 1 } invId (-q)) db.nextId =
          some { inventoryItem := some invId, barcode := bc,
                 customerName := c, quantityDelivered := q, notes := n } := by
        show ((findPair (db.deliveries ++ [(db.nextId,
          { inventoryItem := some invId, barcode := bc, customerName := c,
            quantityDelivered := q, notes := n })]) db.nextId).map Prod.snd) =
          _
        rw [findPair_append_fresh _ _ _ hfresh]
        rfl
      simp only [deleteDelivery, hfdel]
      refine ⟨by trivial, ?_⟩
      show updateByKey (updateByKey db.inventory invId
          (fun it => { it with quantity := it.quantity + -q })) invId
          (fun it => { it with quantity := it.quantity + q }) = db.inventory
      rw [updateByKey_updateByKey]
      apply updateByKey_congr_id
      intro a
      show ({ a with quantity := a.quantity + -q + q } : InventoryItem) = a
      rw [show a.quantity + -q + q = a.quantity by ring]

/-- Witness for C6: recording 3 of the stock-5 item and deleting the
created delivery returns the inventory to its original state. -/
theorem claim_C6_witness :
    (deleteDelivery (recordDelivery wdb 1 "123456789012" "Alice" 3 "").2
      7).1 = .success ∧
    (deleteDelivery (recordDelivery wdb 1 "123456789012" "Alice" 3 "").2
      7).2.inventory = wdb.inventory :=
  claim_C6 wdb 1 "123456789012" "Alice" 3 "" 7 (by decide) (by decide)

/-! ## Non-negativity of stock across the Reconciler -/

theorem quantity_bound_of_nodup {db : DB} {invId : Nat} {item : InventoryItem}
    (hnd : keysNodup db.inventory) (hfind : findItem db invId = some item) :
    ∀ p ∈ db.inventory, p.1 = invId → p.2 = item := by
  intro p hp hpid
  have h1 := findPair_of_keysNodup hnd hp
  rw [hpid] at h1
  rw [findItem, h1] at hfind
  simpa using hfind

theorem delNonneg_saveDeliveryFields {db : DB} (id : Nat) (c : String)
    (q : Int) (n : String) (h : delNonneg db) (hq : 0 ≤ q) :
    delNonneg (saveDeliveryFields db id c q n) := by
  intro p hp
  have hp2 : p ∈ updateByKey db.deliveries id
      (fun d => { d with customerName := c, quantityDelivered := q,
                         notes := n }) := hp
  rcases mem_updateByKey hp2 with hm | ⟨r, hr, hid, rfl⟩
  · exact h p hm
  · simpa using hq

theorem delNonneg_find {db : DB} {did : Nat} {d : Delivery}
    (hdel : delNonneg db) (hd : findDelivery db did = some d) :
    0 ≤ d.quantityDelivered := by
  rw [findDelivery] at hd
  cases hfp : findPair db.deliveries did with
  | none =>
    rw [hfp] at hd
    simp at hd
  | some pr =>
    rw [hfp] at hd
    have hpr := findPair_mem hfp
    have hn := hdel pr hpr.1
    simp only [Option.map_some'] at hd
    have hpd : pr.2 = d := Option.some.inj hd
    rw [← hpd]
    exact hn

def c1item : InventoryItem := { wItem with quantity := 0 }

def c1del : Delivery :=
  { inventoryItem := some 1, barcode := "123456789012",
    customerName := "A", quantityDelivered := 5, notes := "" }

def c1db : DB :=
  { inventory := [(1, c1item)], deliveries := [(1, c1del)], nextId := 2 }

def c1db1 : DB := (updateDelivery c1db 1 "A" (-5) "").2

def c1db2 : DB := (recordDelivery c1db1 1 "123456789012" "A" 10 "").2

def c1db3 : DB := (deleteDelivery c1db2 1).2

/-- C1 as stated is false: from a state where every stored quantity is
non-negative (item stock 0, one delivery of 5), updating that delivery to
-5 succeeds (diff = -10, stock becomes 10), recording a delivery of 10
drains the stock to 0, and then deleting the first delivery increments the
stock by its stored quantityDelivered of -5, leaving quantity -5 < 0:
delete does not only increment. -/
theorem claim_C1_counterexample :
    invNonneg c1db ∧ delNonneg c1db ∧
    (updateDelivery c1db 1 "A" (-5) "").1 = .success ∧ invNonneg c1db1 ∧
    (recordDelivery c1db1 1 "123456789012" "A" 10 "").1 = .success 2 ∧
    invNonneg c1db2 ∧
    (deleteDelivery c1db2 1).1 = .success ∧
    (findItem c1db3 1).map (fun it => it.quantity) = some (-5) := by decide

/-- C1 amended: provided every quantityDelivered passed to record and
update is non-negative (hence every stored quantityDelivered stays
non-negative), each Reconciler operation preserves non-negativity of all
item quantities and of all stored delivered quantities: record refuses
when the requested amount exceeds stock, update with positive diff refuses
when stock is below diff, and delete increments by the stored non-negative
amount. -/
theorem claim_C1_amended (db : DB) (hnd : keysNodup db.inventory)
    (hinv : invNonneg db) (hdel : delNonneg db) (invId did : Nat)
    (bc c : String) (q : Int) (n : String) (hq : 0 ≤ q) :
    (invNonneg (recordDelivery db invId bc c q n).2 ∧
      delNonneg (recordDelivery db invId bc c q n).2) ∧
    (invNonneg (updateDelivery db did c q n).2 ∧
      delNonneg (updateDelivery db did c q n).2) ∧
    (invNonneg (deleteDelivery db did).2 ∧
      delNonneg (deleteDelivery db did).2) := by
  refine ⟨?_, ?_, ?_⟩
  · -- record
    cases hfind : findItem db invId with
    | none =>
      simp only [recordDelivery, hfind]
      exact ⟨hinv, hdel⟩
    | some item =>
      by_cases hlt : item.quantity < q
      · simp only [recordDelivery, hfind, if_pos hlt]
        exact ⟨hinv, hdel⟩
      · simp only [recordDelivery, hfind, if_neg hlt]
        constructor
        · intro p hp
          refine nonneg_updateByKey_quantity hinv ?_ p hp
          intro r hr hrid
          have hri := quantity_bound_of_nodup hnd hfind r hr hrid
          rw [hri]
          omega
        · intro p hp
          rcases List.mem_append.mp hp with hm | hm
          · exact hdel p hm
          · rcases List.mem_singleton.mp hm with rfl
            simpa using hq
  · -- update
    cases hd : findDelivery db did with
    | none =>
      simp only [updateDelivery, hd]
      exact ⟨hinv, hdel⟩
    | some d =>
      by_cases hne : q ≠ d.quantityDelivered
      · cases href : d.inventoryItem with
        | none =>
          simp only [updateDelivery, hd, href, if_pos hne]
          exact ⟨hinv, delNonneg_saveDeliveryFields did c q n hdel hq⟩
        | some invId2 =>
          cases hfind : findItem db invId2 with
          | none =>
            simp only [updateDelivery, hd, href, hfind, if_pos hne]
            exact ⟨hinv, hdel⟩
          | some item =>
            by_cases hcond : (q - d.quantityDelivered < 0 ∨
                item.quantity ≥ q - d.quantityDelivered)
            · simp only [updateDelivery, hd, href, hfind, if_pos hne,
                if_pos hcond]
              constructor
              · intro p hp
                refine nonneg_updateByKey_quantity hinv ?_ p hp
                intro r hr hrid
                rcases hcond with hneg | hge
                · have h0 := hinv r hr
                  omega
                · have hri := quantity_bound_of_nodup hnd hfind r hr hrid
                  rw [hri]
                  omega
              · exact delNonneg_saveDeliveryFields did c q n
                  (fun p hp => hdel p hp) hq
            · simp only [updateDelivery, hd, href, hfind, if_pos hne,
                if_neg hcond]
              exact ⟨hinv, hdel⟩
      · simp only [updateDelivery, hd, if_neg hne]
        exact ⟨hinv, delNonneg_saveDeliveryFields did c q n hdel hq⟩
  · -- delete
    cases hd : findDelivery db did with
    | none =>
      simp only [deleteDelivery, hd]
      exact ⟨hinv, hdel⟩
    | some d =>
      have hdq : 0 ≤ d.quantityDelivered := delNonneg_find hdel hd
      cases href : d.inventoryItem with
      | none =>
        simp only [deleteDelivery, hd, href]
        constructor
        · exact hinv
        · intro p hp
          exact hdel p (List.mem_filter.mp hp).1
      | some invId2 =>
        simp only [deleteDelivery, hd, href]
        constructor
        · intro p hp
          refine nonneg_updateByKey_quantity hinv ?_ p hp
          intro r hr _
          have h0 := hinv r hr
          omega
        · intro p hp
          exact hdel p (List.mem_filter.mp hp).1

/-- Witness for the amended C1 at the stock-5 fixture with request 3:
all three operations keep every stored quantity non-negative. -/
theorem claim_C1_witness :
    (invNonneg (recordDelivery wdb 1 "123456789012" "Alice" 3 "").2 ∧
      delNonneg (recordDelivery wdb 1 "123456789012" "Alice" 3 "").2) ∧
    (invNonneg (updateDelivery wdb 1 "Alice" 3 "").2 ∧
      delNonneg (updateDelivery wdb 1 "Alice" 3 "").2) ∧
    (invNonneg (deleteDelivery wdb 1).2 ∧
      delNonneg (deleteDelivery wdb 1).2) :=
  claim_C1_amended wdb (by decide) (by decide) (by decide) 1 1
    "123456789012" "Alice" 3 "" (by decide)

/-! ## Claims about catalog ingestion (POST /add) -/

/-- C7: for a (size, quantity) pair with positive quantity, ingestion
increments the quantity of an exactly matching existing item (leaving its
barcode, price and description untouched) and counts it as updated; with
no match it allocates a fresh barcode and appends a new item with the
given quantity, counting it as created; a pair with quantity 0 or a
missing quantity is skipped entirely, neither created nor counted. -/
theorem claim_C7 (nm cat col : String) (pr : Rat) (ds : String)
    (rand : Nat → Nat) (acc : IngestAcc) (sz : String) (qty : Option Int)
    (hab : acc.aborted = false) (hnd : keysNodup acc.inv) :
    (∀ (n : Int) (id : Nat) (item : InventoryItem), qty = some n → 0 < n →
      findExact acc.inv nm cat sz col = some (id, item) →
      ingestStep nm cat col pr ds rand acc sz qty =
        { acc with
            inv := updateByKey acc.inv id
              (fun it => { it with quantity := it.quantity + n }),
            itemsUpdated := acc.itemsUpdated + 1 } ∧
      findPair (ingestStep nm cat col pr ds rand acc sz qty).inv id =
        some (id, { item with quantity := item.quantity + n })) ∧
    (∀ (n : Int) (b : String), qty = some n → 0 < n →
      findExact acc.inv nm cat sz col = none →
      generateBarcode acc.inv rand = .ok b →
      ingestStep nm cat col pr ds rand acc sz qty =
        { acc with
            inv := acc.inv ++ [(acc.nextId,
              { itemName := nm, category := cat, size := sz, color := col,
                barcode := b, quantity := n, price := pr,
                description := ds })],
            nextId := acc.nextId + 1,
            itemsCreated := acc.itemsCreated + 1 }) ∧
    (qty = some 0 ∨ qty = none →
      ingestStep nm cat col pr ds rand acc sz qty = acc) := by
  refine ⟨?_, ?_, ?_⟩
  · intro n id item hq hn hfound
    subst hq
    have hskip : ¬((some n : Option Int) = some 0 ∨
        (some n : Option Int) = none) := by
      simp only [Option.some.injEq, reduceCtorEq, or_false]
      omega
    have hstep : ingestStep nm cat col pr ds rand acc sz (some n) =
        { acc with
            inv := updateByKey acc.inv id
              (fun it => { it with quantity := it.quantity + n }),
            itemsUpdated := acc.itemsUpdated + 1 } := by
      simp only [ingestStep, hab, Bool.false_eq_true, if_false,
        if_neg hskip, hfound]
      rfl
    refine ⟨hstep, ?_⟩
    rw [hstep]
    have hmem : (id, item) ∈ acc.inv := by
      unfold findExact at hfound
      exact List.mem_of_find?_eq_some hfound
    have hfp : findPair acc.inv id = some (id, item) :=
      findPair_of_keysNodup hnd hmem
    show findPair (updateByKey acc.inv id
      (fun it => { it with quantity := it.quantity + n })) id = _
    rw [findPair_updateByKey, hfp]
    rfl
  · intro n b hq hn hnone hbc
    subst hq
    have hskip : ¬((some n : Option Int) = some 0 ∨
        (some n : Option Int) = none) := by
      simp only [Option.some.injEq, reduceCtorEq, or_false]
      omega
    simp only [ingestStep, hab, Bool.false_eq_true, if_false,
      if_neg hskip, hnone, hbc]
    rfl
  · intro h
    simp only [ingestStep, hab, Bool.false_eq_true, if_false, if_pos h]

def acc0 : IngestAcc :=
  { inv := [(1, wItem)], nextId := 2, itemsCreated := 0,
    itemsUpdated := 0, aborted := false }

/-- Witness for C7: ingesting (M, 4) for the existing Polo/T-Shirt/M/Blue
line increments its quantity and counts one update. -/
theorem claim_C7_witness :
    ingestStep "Polo" "T-Shirt" "Blue" 0 "" (fun _ => 0) acc0 "M" (some 4) =
      { acc0 with
          inv := updateByKey acc0.inv 1
            (fun it => { it with quantity := it.quantity + 4 }),
          itemsUpdated := acc0.itemsUpdated + 1 } ∧
    findPair (ingestStep "Polo" "T-Shirt" "Blue" 0 "" (fun _ => 0) acc0 "M"
        (some 4)).inv 1 =
      some (1, { wItem with quantity := wItem.quantity + 4 }) :=
  (claim_C7 "Polo" "T-Shirt" "Blue" 0 "" (fun _ => 0) acc0 "M" (some 4)
    rfl (by decide)).1 4 1 wItem rfl (by decide) rfl

/-- C10 (implicit): a negative parsed quantity is not skipped by
ingestion: it increments a matching item by the negative amount (possibly
driving the quantity below zero) and counts it as updated, and with no
matching item it creates a new item carrying the negative quantity. -/
theorem claim_C10 (nm cat col : String) (pr : Rat) (ds : String)
    (rand : Nat → Nat) (acc : IngestAcc) (sz : String) (qty : Option Int)
    (hab : acc.aborted = false) (hnd : keysNodup acc.inv) :
    (∀ (n : Int) (id : Nat) (item : InventoryItem), qty = some n → n < 0 →
      findExact acc.inv nm cat sz col = some (id, item) →
      ingestStep nm cat col pr ds rand acc sz qty =
        { acc with
            inv := updateByKey acc.inv id
              (fun it => { it with quantity := it.quantity + n }),
            itemsUpdated := acc.itemsUpdated + 1 } ∧
      findPair (ingestStep nm cat col pr ds rand acc sz qty).inv id =
        some (id, { item with quantity := item.quantity + n })) ∧
    (∀ (n : Int) (b : String), qty = some n → n < 0 →
      findExact acc.inv nm cat sz col = none →
      generateBarcode acc.inv rand = .ok b →
      ingestStep nm cat col pr ds rand acc sz qty =
        { acc with
            inv := acc.inv ++ [(acc.nextId,
              { itemName := nm, category := cat, size := sz, color := col,
                barcode := b, quantity := n, price := pr,
                description := ds })],
            nextId := acc.nextId + 1,
            itemsCreated := acc.itemsCreated + 1 }) := by
  constructor
  · intro n id item hq hn hfound
    subst hq
    have hskip : ¬((some n : Option Int) = some 0 ∨
        (some n : Option Int) = none) := by
      simp only [Option.some.injEq, reduceCtorEq, or_false]
      omega
    have hstep : ingestStep nm cat col pr ds rand acc sz (some n) =
        { acc with
            inv := updateByKey acc.inv id
              (fun it => { it with quantity := it.quantity + n }),
            itemsUpdated := acc.itemsUpdated + 1 } := by
      simp only [ingestStep, hab, Bool.false_eq_true, if_false,
        if_neg hskip, hfound]
      rfl
    refine ⟨hstep, ?_⟩
    rw [hstep]
    have hmem : (id, item) ∈ acc.inv := by
      unfold findExact at hfound
      exact List.mem_of_find?_eq_some hfound
    have hfp : findPair acc.inv id = some (id, item) :=
      findPair_of_keysNodup hnd hmem
    show findPair (updateByKey acc.inv id
      (fun it => { it with quantity := it.quantity + n })) id = _
    rw [findPair_updateByKey, hfp]
    rfl
  · intro n b hq hn hnone hbc
    subst hq
    have hskip : ¬((some n : Option Int) = some 0 ∨
        (some n : Option Int) = none) := by
      simp only [Option.some.injEq, reduceCtorEq, or_false]
      omega
    simp only [ingestStep, hab, Bool.false_eq_true, if_false,
      if_neg hskip, hnone, hbc]
    rfl

/-- Witness for C10: ingesting (M, -2) for the existing line decrements
its quantity by 2 and counts one update, not skipping the pair. -/
theorem claim_C10_witness :
    ingestStep "Polo" "T-Shirt" "Blue" 0 "" (fun _ => 0) acc0 "M"
        (some (-2)) =
      { acc0 with
          inv := updateByKey acc0.inv 1
            (fun it => { it with quantity := it.quantity + (-2) }),
          itemsUpdated := acc0.itemsUpdated + 1 } ∧
    findPair (ingestStep "Polo" "T-Shirt" "Blue" 0 "" (fun _ => 0) acc0 "M"
        (some (-2))).inv 1 =
      some (1, { wItem with quantity := wItem.quantity + (-2) }) :=
  (claim_C10 "Polo" "T-Shirt" "Blue" 0 "" (fun _ => 0) acc0 "M" (some (-2))
    rfl (by decide)).1 (-2) 1 wItem rfl (by decide) rfl
